import Mathlib

/-!
# Verification of the dClimate-Zarr-Client core

A shallow embedding of the two core subsystems of dClimate-Zarr-Client:

* the authenticated-encryption chunk codec
  (`dclimate_zarr_client/encryption_codec.py`), and
* the dataset resolution layer with its version-chain walker and
  registry/local-cache fallback (`src/ipfs_retrieval.py`, plus the older
  `dclimate_zarr_client/ipfs_retrieval.py` copy).

Bytes are modelled as `Nat` values (each `< 256` in well-formed data) and byte
strings as `List Nat`.  Python exceptions become explicit error values.
-/

/-! ## Byte-string helpers -/

/-- Little-endian radix-256 value of a byte string. -/
def leNat : List Nat → Nat
  | [] => 0
  | b :: bs => b + 256 * leNat bs

/-- Fixed-width little-endian byte encoding of a natural number. -/
def toLEBytes : Nat → Nat → List Nat
  | 0, _ => []
  | n + 1, v => v % 256 :: toLEBytes n (v / 256)

theorem length_toLEBytes (n v : Nat) : (toLEBytes n v).length = n := by
  induction n generalizing v with
  | zero => rfl
  | succ k ih => simp [toLEBytes, ih]

theorem leNat_toLEBytes (n v : Nat) (h : v < 2 ^ (8 * n)) :
    leNat (toLEBytes n v) = v := by
  induction n generalizing v with
  | zero =>
    simp only [Nat.mul_zero, pow_zero, Nat.lt_one_iff] at h
    simp [toLEBytes, leNat, h]
  | succ k ih =>
    have hdiv : v / 256 < 2 ^ (8 * k) := by
      have h256 : (0:Nat) < 256 := by norm_num
      rw [Nat.div_lt_iff_lt_mul h256]
      calc v < 2 ^ (8 * (k + 1)) := h
        _ = 2 ^ (8 * k) * 256 := by rw [Nat.mul_add, pow_add]; norm_num
    simp only [toLEBytes, leNat, ih (v / 256) hdiv]
    exact Nat.mod_add_div v 256

theorem toLEBytes_inj (n a b : Nat) (ha : a < 2 ^ (8 * n)) (hb : b < 2 ^ (8 * n))
    (h : toLEBytes n a = toLEBytes n b) : a = b := by
  have := congrArg leNat h
  rwa [leNat_toLEBytes n a ha, leNat_toLEBytes n b hb] at this

/-- First-match association lookup, the embedding of Python `dict` access /
`dict.get` on a JSON object (JSON object keys are unique). -/
def jget {α : Type} (m : List (String × α)) (k : String) : Option α :=
  match m with
  | [] => none
  | (k', v) :: rest => if k' = k then some v else jget rest k

/-- Bytewise XOR, truncated to the shorter operand (stream-cipher combine). -/
def xorBytes (a b : List Nat) : List Nat :=
  List.zipWith (fun x y => x ^^^ y) a b

theorem xorBytes_cancel (a : List Nat) :
    ∀ b : List Nat, a.length ≤ b.length → xorBytes (xorBytes a b) b = a := by
  induction a with
  | nil => intro b _; rfl
  | cons x xs ih =>
    intro b hb
    cases b with
    | nil => simp at hb
    | cons y ys =>
      simp only [xorBytes, List.zipWith] at *
      simp only [List.length_cons, Nat.succ_le_succ_iff] at hb
      rw [Nat.xor_cancel_right]
      exact congrArg (x :: ·) (ih ys hb)

theorem length_xorBytes (a b : List Nat) :
    (xorBytes a b).length = min a.length b.length := by
  simp [xorBytes]

/-- Flip bit `j` of the byte value `b`: the value moves by exactly `2 ^ j`. -/
def flipBit (b j : Nat) : Nat :=
  if b / 2 ^ j % 2 = 0 then b + 2 ^ j else b - 2 ^ j

/-- Replace byte `i` of `l` by the same byte with bit `j` flipped. -/
def flipByteAt (l : List Nat) (i j : Nat) : List Nat :=
  l.set i (flipBit (l.getD i 0) j)

theorem flipBit_cases (b j : Nat) :
    flipBit b j = b + 2 ^ j ∨ (2 ^ j ≤ b ∧ b = flipBit b j + 2 ^ j) := by
  unfold flipBit
  by_cases h : b / 2 ^ j % 2 = 0
  · left; rw [if_pos h]
  · right
    rw [if_neg h]
    have hle : 2 ^ j ≤ b := by
      by_contra hlt
      push_neg at hlt
      rw [Nat.div_eq_of_lt hlt] at h
      exact h rfl
    exact ⟨hle, (Nat.sub_add_cancel hle).symm⟩

theorem flipBit_ne (b j : Nat) : flipBit b j ≠ b := by
  have hpos : 0 < 2 ^ j := Nat.pos_pow_of_pos j (by norm_num)
  rcases flipBit_cases b j with h | ⟨hle, h⟩
  · rw [h]; omega
  · omega

/-! ## AEAD primitive

Modelled from the spec: the XChaCha20-Poly1305 primitive is supplied by a
third-party cryptography library (`Crypto.Cipher.ChaCha20_Poly1305`) that is
not part of this repository's sources.  Following the spec's interface
description — "AEAD-encrypt with key, nonce, header-as-associated-data" with a
24-byte nonce and a 16-byte tag — it is modelled as a generic AEAD: a
keystream-XOR stream cipher together with a 16-byte authentication tag that is
a function of the key, the nonce, the associated data and the ciphertext.
-/

/-- Modelled from the spec: one keystream byte of the stream cipher, a
pseudorandom function of the key, the nonce and the byte position. -/
def ksByte (key nonce : List Nat) (i : Nat) : Nat :=
  ((leNat key + 1) * (2 * leNat nonce + 1) + 131 * i + i / 7) % 256

/-- Modelled from the spec: the first `n` keystream bytes under `key`/`nonce`. -/
def keystream (key nonce : List Nat) (n : Nat) : List Nat :=
  (List.range n).map (ksByte key nonce)

theorem length_keystream (key nonce : List Nat) (n : Nat) :
    (keystream key nonce n).length = n := by
  simp [keystream]

/-- Modulus of the tag accumulator; an odd number below `2 ^ 128`, so the tag
value fits in 16 bytes and no power of two is divisible by it. -/
def macModulus : Nat := 2 ^ 127 - 1

/-- Modelled from the spec: the authentication-tag value, a function of the
key, the nonce, the associated data (the codec header) and the ciphertext,
reduced modulo `macModulus`.  The ciphertext enters through its radix-256
value scaled by a fixed power of two, so any single-bit change of the
ciphertext moves the accumulator by a power of two. -/
def macNat (key nonce header ct : List Nat) : Nat :=
  (leNat key + 2 ^ 260 * leNat nonce + 2 ^ 460 * leNat header
      + 2 ^ 720 * header.length + 2 ^ 780 * ct.length
      + 2 ^ 840 * leNat ct) % macModulus

/-- Modelled from the spec: the 16-byte authentication tag. -/
def macBytes (key nonce header ct : List Nat) : List Nat :=
  toLEBytes 16 (macNat key nonce header ct)

theorem length_macBytes (key nonce header ct : List Nat) :
    (macBytes key nonce header ct).length = 16 :=
  length_toLEBytes 16 _

theorem macModulus_pos : 0 < macModulus := by decide

theorem macModulus_lt : macModulus < 2 ^ (8 * 16) := by decide

theorem macModulus_not_dvd_two_pow (k : Nat) : ¬ macModulus ∣ 2 ^ k := by
  intro hdvd
  rcases (Nat.dvd_prime_pow Nat.prime_two).1 hdvd with ⟨m, _, hm⟩
  cases m with
  | zero =>
    rw [pow_zero] at hm
    exact absurd hm (by decide)
  | succ m' =>
    have h2 : (2:Nat) ∣ macModulus := hm ▸ dvd_pow_self 2 (Nat.succ_ne_zero m')
    have : macModulus % 2 = 0 := Nat.dvd_iff_mod_eq_zero.1 h2
    exact absurd this (by decide)

theorem leNat_set (l : List Nat) :
    ∀ i a : Nat, i < l.length →
      leNat (l.set i a) + 256 ^ i * l.getD i 0 = leNat l + 256 ^ i * a := by
  induction l with
  | nil => intro i a h; simp at h
  | cons b bs ih =>
    intro i a h
    cases i with
    | zero =>
      show leNat (a :: bs) + 256 ^ 0 * (b :: bs).getD 0 0 = leNat (b :: bs) + 256 ^ 0 * a
      simp only [List.getD_cons_zero, pow_zero, Nat.one_mul, leNat]
      omega
    | succ k =>
      have hk : k < bs.length := by simpa using h
      have hrec := ih k a hk
      simp only [List.set, leNat, List.getD_cons_succ, pow_succ]
      have hgoal :
          256 * leNat (bs.set k a) + 256 * (256 ^ k * bs.getD k 0)
            = 256 * leNat bs + 256 * (256 ^ k * a) := by
        rw [← Nat.mul_add, ← Nat.mul_add, hrec]
      calc b + 256 * leNat (bs.set k a) + 256 ^ k * 256 * bs.getD k 0
          = b + (256 * leNat (bs.set k a) + 256 * (256 ^ k * bs.getD k 0)) := by ring
        _ = b + (256 * leNat bs + 256 * (256 ^ k * a)) := by rw [hgoal]
        _ = b + 256 * leNat bs + 256 ^ k * 256 * a := by ring

theorem leNat_flipByteAt (l : List Nat) (i j : Nat) (h : i < l.length) :
    leNat (flipByteAt l i j) = leNat l + 2 ^ (8 * i + j) ∨
      leNat l = leNat (flipByteAt l i j) + 2 ^ (8 * i + j) := by
  have hset := leNat_set l i (flipBit (l.getD i 0) j) h
  have hpow : 256 ^ i * 2 ^ j = 2 ^ (8 * i + j) := by
    have : (256:Nat) = 2 ^ 8 := by norm_num
    rw [this, ← pow_mul, ← pow_add]
  rcases flipBit_cases (l.getD i 0) j with hc | ⟨_, hc⟩
  · left
    have hmul : 256 ^ i * flipBit (l.getD i 0) j
        = 256 ^ i * l.getD i 0 + 2 ^ (8 * i + j) := by
      rw [hc, Nat.mul_add, hpow]
    rw [hmul] at hset
    unfold flipByteAt
    omega
  · right
    have hmul : 256 ^ i * l.getD i 0
        = 256 ^ i * flipBit (l.getD i 0) j + 2 ^ (8 * i + j) := by
      conv_lhs => rw [hc]
      rw [Nat.mul_add, hpow]
    rw [hmul] at hset
    unfold flipByteAt
    omega

theorem mod_add_two_pow_ne (v k : Nat) :
    (v + 2 ^ k) % macModulus ≠ v % macModulus := by
  intro h
  have hmod : v ≡ v + 2 ^ k [MOD macModulus] := h.symm
  have hdvd : macModulus ∣ (v + 2 ^ k) - v :=
    (Nat.modEq_iff_dvd' (Nat.le_add_right v (2 ^ k))).1 hmod
  rw [Nat.add_sub_cancel_left] at hdvd
  exact macModulus_not_dvd_two_pow k hdvd

theorem macNat_flipByteAt_ne (key nonce header ct : List Nat) (i j : Nat)
    (h : i < ct.length) :
    macNat key nonce header (flipByteAt ct i j) ≠ macNat key nonce header ct := by
  have hlen : (flipByteAt ct i j).length = ct.length := by
    simp [flipByteAt]
  unfold macNat
  rw [hlen]
  rcases leNat_flipByteAt ct i j h with hc | hc
  · rw [hc, Nat.mul_add, ← Nat.add_assoc, ← pow_add]
    exact mod_add_two_pow_ne _ _
  · conv_rhs => rw [hc]
    rw [Nat.mul_add, ← Nat.add_assoc, ← pow_add]
    exact fun hcontra => mod_add_two_pow_ne _ _ hcontra.symm

theorem macNat_lt (key nonce header ct : List Nat) :
    macNat key nonce header ct < 2 ^ (8 * 16) :=
  Nat.lt_trans (Nat.mod_lt _ macModulus_pos) macModulus_lt

theorem macBytes_flipByteAt_ne (key nonce header ct : List Nat) (i j : Nat)
    (h : i < ct.length) :
    macBytes key nonce header (flipByteAt ct i j) ≠ macBytes key nonce header ct := by
  intro heq
  exact macNat_flipByteAt_ne key nonce header ct i j h
    (toLEBytes_inj 16 _ _ (macNat_lt _ _ _ _) (macNat_lt _ _ _ _) heq)

/-! ## `EncryptionCodec` (dclimate_zarr_client/encryption_codec.py)

The class-level `_encryption_key` attribute is modelled as an explicit
`KeyState` value threaded through the class methods; raised exceptions become
`CodecError` values.  Header strings are modelled by their encoded byte
strings (`header.encode()` in the source). -/

/-- The errors the codec can signal: `ValueError` from `__init__` when no key
is set (the spec's `Misconfigured`), `ValueError` from `set_encryption_key`
(the spec's `InvalidKey`), and tag-verification failure in `decode` (the
spec's `IntegrityError`). -/
inductive CodecError where
  | misconfigured
  | invalidKey
  | integrityError
deriving DecidableEq

/-- The class attribute `EncryptionCodec._encryption_key`: `none` until
`set_encryption_key` has succeeded. -/
abbrev KeyState : Type := Option (List Nat)

/-- `EncryptionCodec.set_encryption_key`: rejects any input whose length is
not exactly 32, leaving the stored key unchanged; otherwise stores the input.
Returns the new key state together with the raised error, if any. -/
def set_encryption_key (st : KeyState) (encryption_key : List Nat) :
    KeyState × Option CodecError :=
  if encryption_key.length ≠ 32 then (st, some CodecError.invalidKey)
  else (some encryption_key, none)

/-- An `EncryptionCodec` instance: the encoded header together with the
encryption key which `__init__` requires to be set. -/
structure EncryptionCodec where
  encodedHeader : List Nat
  key : List Nat
deriving DecidableEq

/-- `EncryptionCodec.__init__`: raises (`Misconfigured`) when the class-level
key is unset, otherwise produces an instance. -/
def EncryptionCodec.init (st : KeyState) (header : List Nat) :
    Except CodecError EncryptionCodec :=
  match st with
  | none => Except.error CodecError.misconfigured
  | some k => Except.ok { encodedHeader := header, key := k }

/-- `EncryptionCodec.encode`: AEAD-encrypt `buf` with the instance key, the
supplied fresh 24-byte nonce (`get_random_bytes(24)` in the source, passed
here as an argument) and the header as associated data, and emit the frame
`nonce ++ tag ++ ciphertext`. -/
def EncryptionCodec.encode (c : EncryptionCodec) (nonce buf : List Nat) :
    List Nat :=
  nonce ++ macBytes c.key nonce c.encodedHeader
      (xorBytes buf (keystream c.key nonce buf.length))
    ++ xorBytes buf (keystream c.key nonce buf.length)

/-- `EncryptionCodec.decode` without an output buffer: split the frame as
`buf[:24]`, `buf[24:40]`, `buf[40:]`, verify the tag over the ciphertext with
the same key and header, and only then decrypt; tag mismatch raises the
integrity error. -/
def EncryptionCodec.decode (c : EncryptionCodec) (buf : List Nat) :
    Except CodecError (List Nat) :=
  if macBytes c.key (buf.take 24) c.encodedHeader (buf.drop 40)
      = (buf.drop 24).take 16 then
    Except.ok (xorBytes (buf.drop 40)
      (keystream c.key (buf.take 24) (buf.drop 40).length))
  else
    Except.error CodecError.integrityError

/-- `BytesIO(plaintext).readinto(out)`: overwrite the first
`min plaintext.length out.length` bytes of `out`, keep the rest. -/
def writeInto (out plaintext : List Nat) : List Nat :=
  let k := min plaintext.length out.length
  plaintext.take k ++ out.drop k

/-- `EncryptionCodec.decode` including the optional `out` buffer: the result
of the call together with the final contents of the caller's buffer.  The
source raises inside `decrypt_and_verify` before `out` is touched, so on any
error the buffer is returned unchanged. -/
def EncryptionCodec.decodeWithOut (c : EncryptionCodec) (buf : List Nat)
    (out : Option (List Nat)) :
    Except CodecError (List Nat) × Option (List Nat) :=
  match c.decode buf with
  | Except.error e => (Except.error e, out)
  | Except.ok plaintext =>
    match out with
    | none => (Except.ok plaintext, none)
    | some o =>
      let o' := writeInto o plaintext
      (Except.ok o', some o')

/-- The default header of `EncryptionCodec.from_config`: the byte string of
`"dClimate-Zarr"`. -/
def defaultHeader : List Nat :=
  [100, 67, 108, 105, 109, 97, 116, 101, 45, 90, 97, 114, 114]

/-- `EncryptionCodec.from_config`: read only `config.get("header",
"dClimate-Zarr")` from the configuration and construct the instance; the key
comes solely from the class-level key state. -/
def EncryptionCodec.from_config (st : KeyState)
    (config : List (String × List Nat)) : Except CodecError EncryptionCodec :=
  EncryptionCodec.init st ((jget config "header").getD defaultHeader)

/-- Calling `encode` through the public API: instantiating the codec (which
checks the key) and then encoding. -/
def encode_via (st : KeyState) (header nonce buf : List Nat) :
    Except CodecError (List Nat) :=
  match EncryptionCodec.init st header with
  | Except.error e => Except.error e
  | Except.ok c => Except.ok (c.encode nonce buf)

/-- Calling `decode` through the public API: instantiating the codec (which
checks the key) and then decoding with an optional output buffer. -/
def decode_via (st : KeyState) (header buf : List Nat)
    (out : Option (List Nat)) :
    Except CodecError (List Nat) × Option (List Nat) :=
  match EncryptionCodec.init st header with
  | Except.error e => (Except.error e, out)
  | Except.ok c => c.decodeWithOut buf out

theorem frame_split (nonce tag ct : List Nat) (hn : nonce.length = 24)
    (ht : tag.length = 16) :
    (nonce ++ tag ++ ct).take 24 = nonce ∧
    ((nonce ++ tag ++ ct).drop 24).take 16 = tag ∧
    (nonce ++ tag ++ ct).drop 40 = ct := by
  rw [List.append_assoc]
  have h1 : (nonce ++ (tag ++ ct)).take 24 = nonce := by
    rw [List.take_append_of_le_length (by omega), ← hn, List.take_length]
  have h2 : (nonce ++ (tag ++ ct)).drop 24 = tag ++ ct := by
    rw [List.drop_append_of_le_length (by omega), ← hn, List.drop_length,
      List.nil_append]
  have h3 : (tag ++ ct).take 16 = tag := by
    rw [List.take_append_of_le_length (by omega), ← ht, List.take_length]
  have h4 : (nonce ++ (tag ++ ct)).drop 40 = ct := by
    have h40 : (40:Nat) = 24 + 16 := by norm_num
    rw [h40, ← List.drop_drop, h2, List.drop_append_of_le_length (by omega),
      ← ht, List.drop_length, List.nil_append]
  refine ⟨h1, ?_, h4⟩
  rw [h2]
  exact h3

theorem decode_frame (c : EncryptionCodec) (nonce tag ct : List Nat)
    (hn : nonce.length = 24) (ht : tag.length = 16) :
    c.decode (nonce ++ tag ++ ct) =
      if macBytes c.key nonce c.encodedHeader ct = tag then
        Except.ok (xorBytes ct (keystream c.key nonce ct.length))
      else Except.error CodecError.integrityError := by
  obtain ⟨h1, h2, h3⟩ := frame_split nonce tag ct hn ht
  unfold EncryptionCodec.decode
  rw [h1, h2, h3]

/-! ## Dataset resolution (src/ipfs_retrieval.py)

Snapshot metadata documents are modelled by the fields the code reads: the
parsed `properties.updated` timestamp (seconds since some epoch, the result of
`datetime.strptime`) and the `links` collection, each link carrying its `rel`
tag and the `metadata href` content id.  The snapshot store (`/dag/get` over
the network) is a partial map from content ids to documents. -/

/-- One entry of a STAC metadata `links` collection: its `rel` tag and the
content id under `link["metadata href"]["/"]`. -/
structure LinkEntry where
  rel : String
  href : String
deriving DecidableEq

/-- A STAC metadata document, reduced to the fields the walker reads. -/
structure Metadata where
  updated : Nat
  links : List LinkEntry
deriving DecidableEq

/-- `_get_previous_hash_from_metadata` of `src/ipfs_retrieval.py`: the first
link whose `rel` is `"prev"` or `"previous"`, or `None`. -/
def get_previous_hash_from_metadata (metadata : Metadata) : Option String :=
  match metadata.links.filter (fun l => l.rel == "prev" || l.rel == "previous") with
  | [] => none
  | l :: _ => some l.href

/-- `_get_previous_hash_from_metadata` of the older copy in
`dclimate_zarr_client/ipfs_retrieval.py`: the first link whose `rel` is
exactly `"previous"`, or `None`. -/
def legacy_get_previous_hash_from_metadata (metadata : Metadata) :
    Option String :=
  match metadata.links.filter (fun l => l.rel == "previous") with
  | [] => none
  | l :: _ => some l.href

/-- Failures of the walker: an exhausted chain
(`NoMetadataFoundError`), a failed `/dag/get` network fetch (an uncaught
`requests` exception in the source), and exhausted fuel — an artifact of
modelling the source's unbounded `while True` loop, which theorems rule out
by supplying fuel of at least the chain length. -/
inductive WalkError where
  | noMetadataFound
  | fetchFailure
  | outOfFuel
deriving DecidableEq

/-- `_get_relevant_metadata`: fetch the head document, then walk `previous`
links until a document with `updated ≤ as_of` is found; when a document has
no previous link, raise `NoMetadataFoundError`. -/
def get_relevant_metadata (store : String → Option Metadata) :
    Nat → String → Nat → Except WalkError Metadata
  | 0, _, _ => Except.error WalkError.outOfFuel
  | fuel + 1, ipfs_hash, as_of =>
    match store ipfs_hash with
    | none => Except.error WalkError.fetchFailure
    | some cur_metadata =>
      if cur_metadata.updated ≤ as_of then Except.ok cur_metadata
      else
        match get_previous_hash_from_metadata cur_metadata with
        | none => Except.error WalkError.noMetadataFound
        | some prev_hash => get_relevant_metadata store fuel prev_hash as_of

/-- The `as_of` dispatch of `get_dataset_by_ipns_hash`
(`dclimate_zarr_client/ipfs_retrieval.py`): with `as_of=None` the head
document is fetched directly (`_get_single_metadata`), without walking;
otherwise `_get_relevant_metadata` runs. -/
def resolve_metadata_as_of (store : String → Option Metadata) (fuel : Nat)
    (ipfs_head_hash : String) (as_of : Option Nat) :
    Except WalkError Metadata :=
  match as_of with
  | none =>
    match store ipfs_head_hash with
    | none => Except.error WalkError.fetchFailure
    | some md => Except.ok md
  | some t => get_relevant_metadata store fuel ipfs_head_hash t

/-- `Chain store h ms`: following previous links from content id `h` through
`store` materialises exactly the snapshot documents `ms` (head first, root
last).  This is the spec's finite acyclic backward-linked chain. -/
inductive Chain (store : String → Option Metadata) : String → List Metadata → Prop
  | single {h : String} {md : Metadata} :
      store h = some md → get_previous_hash_from_metadata md = none →
      Chain store h [md]
  | cons {h h' : String} {md : Metadata} {ms : List Metadata} :
      store h = some md → get_previous_hash_from_metadata md = some h' →
      Chain store h' ms → Chain store h (md :: ms)

/-! ### Name resolution (`get_ipns_name_hash`) -/

/-- The key-to-pointer mapping of the registry endpoint or the cache file. -/
abbrev Registry : Type := List (String × String)

/-- The only error `get_ipns_name_hash` surfaces: `DatasetNotFoundError`. -/
inductive ResolveError where
  | datasetNotFound
deriving DecidableEq

/-- The outcome of `requests.get(CID_ENDPOINT)` + `r.json()`: a parsed
mapping, or any registry failure (network error or malformed payload). -/
abbrev FetchOutcome : Type := Except Unit Registry

/-- The state of the local cache file `cids.json`: `none` when the file does
not exist, `some none` when it exists but fails to parse, `some (some m)`
when it parses to the mapping `m`. -/
abbrev CacheFile : Type := Option (Option Registry)

/-- `get_ipns_name_hash` of `src/ipfs_retrieval.py`.  On a successful fetch
the key is looked up in the fetched mapping and a miss raises
`DatasetNotFoundError` (the loop falls through to the final `raise`; the
cache is never consulted).  On any fetch failure the local cache file is
tried: a missing file or a parse failure or a miss all raise
`DatasetNotFoundError`. -/
def get_ipns_name_hash (fetch : FetchOutcome) (cache : CacheFile)
    (ipns_key_str : String) : Except ResolveError String :=
  match fetch with
  | Except.ok json_cid =>
    match jget json_cid ipns_key_str with
    | some v => Except.ok v
    | none => Except.error ResolveError.datasetNotFound
  | Except.error _ =>
    match cache with
    | none => Except.error ResolveError.datasetNotFound
    | some none => Except.error ResolveError.datasetNotFound
    | some (some json_cid) =>
      match jget json_cid ipns_key_str with
      | some v => Except.ok v
      | none => Except.error ResolveError.datasetNotFound

/-- Modelled from the spec: `update_cache_if_changed`, which the repository's
test suite imports from `src.ipfs_retrieval` but which is absent from the
sources under `src/`.  Per the spec, the freshly fetched mapping is compared
to the stored cache content (a missing cache is treated as empty) and the
cache file is overwritten wholesale exactly when they differ.  The result is
the write effect: `some m` when `m` is written to the file, `none` when no
write occurs. -/
def update_cache_if_changed (stored : Option Registry) (fresh : Registry) :
    Option Registry :=
  if fresh = stored.getD [] then none else some fresh

/-- Modelled from the spec: the resolve path with cache write-back, absent
from the sources under `src/` (only its tests remain).  On a successful
registry fetch the cache is updated via `update_cache_if_changed` and the key
is looked up in the fresh mapping; on a registry failure the stored cache is
consulted and nothing is written.  Returns the lookup result together with
the cache write effect. -/
def resolve_with_cache_update (fetch : FetchOutcome)
    (stored : Option Registry) (key : String) :
    Except ResolveError String × Option Registry :=
  match fetch with
  | Except.ok fresh =>
    (match jget fresh key with
     | some v => Except.ok v
     | none => Except.error ResolveError.datasetNotFound,
     update_cache_if_changed stored fresh)
  | Except.error _ =>
    (match stored with
     | none => Except.error ResolveError.datasetNotFound
     | some m =>
       match jget m key with
       | some v => Except.ok v
       | none => Except.error ResolveError.datasetNotFound,
     none)

/-! ## Claim theorems -/

/-- C1: for every plaintext byte string `p` and every header, given a validly
set 32-byte encryption key (an instance constructed after the key was set)
and the fresh 24-byte nonce drawn by `encode`, `decode (encode p)` returns
exactly `p`. -/
theorem C1_encode_decode_roundtrip (c : EncryptionCodec) (nonce p : List Nat)
    (hkey : c.key.length = 32) (hnonce : nonce.length = 24) :
    c.decode (c.encode nonce p) = Except.ok p := by
  have hframe : c.encode nonce p =
      nonce ++ macBytes c.key nonce c.encodedHeader
          (xorBytes p (keystream c.key nonce p.length))
        ++ xorBytes p (keystream c.key nonce p.length) := rfl
  rw [hframe, decode_frame c nonce _ _ hnonce (length_macBytes _ _ _ _),
    if_pos rfl]
  have hlen : (xorBytes p (keystream c.key nonce p.length)).length = p.length := by
    rw [length_xorBytes, length_keystream, Nat.min_self]
  rw [hlen]
  exact congrArg Except.ok
    (xorBytes_cancel p _ (le_of_eq (length_keystream _ _ _).symm))

/-- A concrete 32-byte key, 24-byte nonce, plaintext and codec instance used
by the witnesses. -/
def keyW : List Nat := List.replicate 32 7

def nonceW : List Nat := List.replicate 24 1

def pW : List Nat := [10, 20, 30]

def codecW : EncryptionCodec := { encodedHeader := defaultHeader, key := keyW }

/-- Witness for C1 at a concrete key, nonce and plaintext. -/
theorem C1_encode_decode_roundtrip_witness :
    codecW.key.length = 32 ∧ nonceW.length = 24 ∧
      codecW.decode (codecW.encode nonceW pW) = Except.ok pW :=
  ⟨by decide, by decide,
    C1_encode_decode_roundtrip codecW nonceW pW (by decide) (by decide)⟩

/-- C7: while the class-level encryption key is unset, every route to
`encode` or `decode` fails with the misconfiguration error raised by
`__init__`, so no call can produce output. -/
theorem C7_unset_key_misconfigured (header nonce buf : List Nat)
    (out : Option (List Nat)) :
    encode_via none header nonce buf = Except.error CodecError.misconfigured ∧
    decode_via none header buf out
      = (Except.error CodecError.misconfigured, out) :=
  ⟨rfl, rfl⟩

/-- C9: `from_config` reads only the `"header"` entry of the configuration
(default `"dClimate-Zarr"`): two configurations agreeing on `"header"` give
identical results whatever other entries (key material included) they hold,
and a successfully constructed codec carries exactly the process-wide key. -/
theorem C9_from_config_header_only (st : KeyState)
    (cfg1 cfg2 : List (String × List Nat))
    (h : jget cfg1 "header" = jget cfg2 "header") :
    EncryptionCodec.from_config st cfg1 = EncryptionCodec.from_config st cfg2 ∧
    ∀ c, EncryptionCodec.from_config st cfg1 = Except.ok c →
      st = some c.key ∧
      c.encodedHeader = (jget cfg1 "header").getD defaultHeader := by
  constructor
  · unfold EncryptionCodec.from_config
    rw [h]
  · intro c hc
    unfold EncryptionCodec.from_config EncryptionCodec.init at hc
    cases st with
    | none => simp at hc
    | some k =>
      simp only [Except.ok.injEq] at hc
      rw [← hc]
      exact ⟨rfl, rfl⟩

/-- Witness for C9: a configuration smuggling a `"key"` entry resolves the
same as one without it, and the constructed codec keeps the class-level key. -/
theorem C9_from_config_header_only_witness :
    jget [("key", [9, 9, 9]), ("header", [104])] "header"
        = jget [("header", [104])] "header" ∧
      (EncryptionCodec.from_config (some keyW) [("key", [9, 9, 9]), ("header", [104])]
          = EncryptionCodec.from_config (some keyW) [("header", [104])] ∧
        ∀ c, EncryptionCodec.from_config (some keyW)
            [("key", [9, 9, 9]), ("header", [104])] = Except.ok c →
          some keyW = some c.key ∧
          c.encodedHeader
            = (jget [("key", [9, 9, 9]), ("header", [104])] "header").getD defaultHeader) :=
  ⟨by decide, C9_from_config_header_only (some keyW) _ _ (by decide)⟩

/-- A 64-character hexadecimal key string as supplied by the repository's own
test suite (`get_random_bytes(32).hex()`), modelled by its byte values —
here sixty-four ASCII `0` characters. -/
def hexKey64 : List Nat := List.replicate 64 48

/-- C6 (code bug): `set_encryption_key` evaluated at the failing input. The
source rejects every input whose length is not 32, so the 64-character hex
encoding the claim (and the repository's test fixture) says is accepted is
refused with the invalid-key error, while the stored key stays unchanged; a
32-byte raw key is accepted. -/
theorem C6_set_key_rejects_hex :
    set_encryption_key none hexKey64 = (none, some CodecError.invalidKey) ∧
    set_encryption_key (some keyW) hexKey64
      = (some keyW, some CodecError.invalidKey) ∧
    set_encryption_key none (List.replicate 32 0)
      = (some (List.replicate 32 0), none) := by
  refine ⟨?_, ?_, ?_⟩ <;> decide

/-- C10: when the registry fetch succeeds but the requested key is absent
from the fetched mapping, `get_ipns_name_hash` raises `DatasetNotFoundError`
for every possible state of the local cache file — the cache (even one
containing the key) is consulted only on the registry-failure path. -/
theorem C10_success_path_ignores_cache (reg : Registry) (cache : CacheFile)
    (key : String) (habs : jget reg key = none) :
    get_ipns_name_hash (Except.ok reg) cache key
      = Except.error ResolveError.datasetNotFound := by
  simp only [get_ipns_name_hash, habs]

/-- Witness for C10: the fetched mapping lacks `"k"`, the cache file holds
`"k"`, and resolution still fails with the dataset-not-found error. -/
theorem C10_success_path_ignores_cache_witness :
    jget [("other", "x")] "k" = none ∧
    get_ipns_name_hash (Except.ok [("other", "x")])
        (some (some [("k", "v")])) "k"
      = Except.error ResolveError.datasetNotFound :=
  ⟨by decide,
    C10_success_path_ignores_cache [("other", "x")] (some (some [("k", "v")])) "k"
      (by decide)⟩

/-- C3: on any registry failure, a key present in the parsed local cache
resolves to the cached pointer; and a key absent from the fetched registry
mapping (when any) and from the parsed cache mapping (when any) fails with
`DatasetNotFoundError`. -/
theorem C3_registry_failure_cache_fallback (fetch : FetchOutcome)
    (cache : CacheFile) (key : String) :
    (∀ m v, fetch = Except.error () → cache = some (some m) →
      jget m key = some v →
      get_ipns_name_hash fetch cache key = Except.ok v) ∧
    ((∀ reg, fetch = Except.ok reg → jget reg key = none) →
     (∀ m, cache = some (some m) → jget m key = none) →
      get_ipns_name_hash fetch cache key
        = Except.error ResolveError.datasetNotFound) := by
  constructor
  · intro m v hf hc hk
    subst hf
    subst hc
    simp only [get_ipns_name_hash, hk]
  · intro hreg hcache
    cases fetch with
    | ok reg =>
      simp only [get_ipns_name_hash, hreg reg rfl]
    | error e =>
      cases cache with
      | none => rfl
      | some parse =>
        cases parse with
        | none => rfl
        | some m =>
          simp only [get_ipns_name_hash, hcache m rfl]

/-- Witness for C3: with the registry failed, the cached key `"k"` resolves
to its cached pointer, and a key absent everywhere fails. -/
theorem C3_registry_failure_cache_fallback_witness :
    get_ipns_name_hash (Except.error ()) (some (some [("k", "v")])) "k"
        = Except.ok "v" ∧
    get_ipns_name_hash (Except.error ()) (some (some [("k", "v")])) "absent"
        = Except.error ResolveError.datasetNotFound :=
  ⟨(C3_registry_failure_cache_fallback (Except.error ())
      (some (some [("k", "v")])) "k").1 [("k", "v")] "v" rfl rfl (by decide),
   (C3_registry_failure_cache_fallback (Except.error ())
      (some (some [("k", "v")])) "absent").2
      (fun reg h => by cases h)
      (fun m hm => by
        simp only [Option.some.injEq] at hm
        rw [← hm]
        decide)⟩

/-- C4: on a successful registry fetch, the cache file is rewritten
(wholesale, with the fresh mapping) exactly when the fetched mapping differs
from the stored cache content, a missing cache counting as empty. -/
theorem C4_cache_rewritten_iff_changed (fresh : Registry)
    (stored : Option Registry) (key : String) :
    ((resolve_with_cache_update (Except.ok fresh) stored key).2 = some fresh
        ↔ fresh ≠ stored.getD []) ∧
    ((resolve_with_cache_update (Except.ok fresh) stored key).2 = none
        ↔ fresh = stored.getD []) := by
  simp only [resolve_with_cache_update, update_cache_if_changed]
  by_cases h : fresh = stored.getD []
  · simp [h]
  · simp [h]

theorem walk_chain (store : String → Option Metadata) {head : String}
    {ms : List Metadata} (hch : Chain store head ms) :
    ∀ asOf fuel : Nat, ms.length ≤ fuel →
      get_relevant_metadata store fuel head asOf =
        match ms.find? (fun m => decide (m.updated ≤ asOf)) with
        | some md => Except.ok md
        | none => Except.error WalkError.noMetadataFound := by
  induction hch with
  | @single h md hst hprev =>
    intro asOf fuel hf
    cases fuel with
    | zero => simp at hf
    | succ f =>
      simp only [get_relevant_metadata, hst]
      by_cases hle : md.updated ≤ asOf
      · rw [if_pos hle]
        simp [List.find?, hle]
      · rw [if_neg hle, hprev]
        simp [List.find?, hle]
  | @cons h h' md ms hst hprev hch' ih =>
    intro asOf fuel hf
    cases fuel with
    | zero => simp at hf
    | succ f =>
      have hf' : ms.length ≤ f := by
        simpa using hf
      simp only [get_relevant_metadata, hst]
      by_cases hle : md.updated ≤ asOf
      · rw [if_pos hle]
        simp [List.find?, hle]
      · rw [if_neg hle, hprev]
        show get_relevant_metadata store f h' asOf = _
        rw [ih asOf f hf']
        simp [List.find?, hle]

/-- C2: over a finite acyclic chain materialised from the store, the walker
returns the first snapshot (head to root) whose `updated` timestamp is `≤
as_of` (inclusive equality), fails with `NoMetadataFoundError` when no
snapshot qualifies, and with `as_of` omitted the head snapshot is returned
directly without walking. -/
theorem C2_resolve_as_of (store : String → Option Metadata) (head : String)
    (ms : List Metadata) (asOf fuel : Nat) (hch : Chain store head ms)
    (hf : ms.length ≤ fuel) :
    (get_relevant_metadata store fuel head asOf =
      match ms.find? (fun m => decide (m.updated ≤ asOf)) with
      | some md => Except.ok md
      | none => Except.error WalkError.noMetadataFound) ∧
    (∀ md, store head = some md →
      resolve_metadata_as_of store fuel head none = Except.ok md) := by
  refine ⟨walk_chain store hch asOf fuel hf, ?_⟩
  intro md hmd
  simp [resolve_metadata_as_of, hmd]

/-- Snapshots of the witness chain: A is the root (timestamp 1), B links to A
through the legacy `"prev"` tag (timestamp 2), the head C links to B through
`"previous"` (timestamp 3). -/
def mdA : Metadata := { updated := 1, links := [] }

def mdB : Metadata := { updated := 2, links := [{ rel := "prev", href := "hashA" }] }

def mdC : Metadata := { updated := 3, links := [{ rel := "previous", href := "hashB" }] }

/-- The witness snapshot store holding the three-snapshot chain. -/
def storeW : String → Option Metadata := fun h =>
  if h = "hashC" then some mdC
  else if h = "hashB" then some mdB
  else if h = "hashA" then some mdA
  else none

/-- Witness for C2 on the synthetic chain A (t=1) ← B (t=2) ← C (head, t=3):
`as_of = 2` resolves to B, and `as_of = None` returns the head C. -/
theorem C2_resolve_as_of_witness :
    Chain storeW "hashC" [mdC, mdB, mdA] ∧ [mdC, mdB, mdA].length ≤ 3 ∧
    get_relevant_metadata storeW 3 "hashC" 2 = Except.ok mdB ∧
    resolve_metadata_as_of storeW 3 "hashC" none = Except.ok mdC := by
  have hch : Chain storeW "hashC" [mdC, mdB, mdA] :=
    @Chain.cons storeW "hashC" "hashB" mdC [mdB, mdA] (by decide) (by decide)
      (@Chain.cons storeW "hashB" "hashA" mdB [mdA] (by decide) (by decide)
        (@Chain.single storeW "hashA" mdA (by decide) (by decide)))
  have hmain := C2_resolve_as_of storeW "hashC" [mdC, mdB, mdA] 2 3 hch (by decide)
  refine ⟨hch, by decide, ?_, hmain.2 mdC (by decide)⟩
  rw [hmain.1]
  rfl

theorem filter_first {α : Type} [DecidableEq α] (p : α → Bool) :
    ∀ (l : List α) (e : α), e ∈ l → p e = true →
      (∀ x ∈ l, p x = true → x = e) → ∃ rest, l.filter p = e :: rest := by
  intro l
  induction l with
  | nil => intro e hmem _ _; cases hmem
  | cons x xs ih =>
    intro e hmem hpe huniq
    by_cases hpx : p x = true
    · have hxe : x = e := huniq x (List.mem_cons_self x xs) hpx
      subst hxe
      exact ⟨xs.filter p, by simp [List.filter_cons, hpx]⟩
    · have hmem' : e ∈ xs := by
        rcases List.mem_cons.mp hmem with h | h
        · exact absurd (h ▸ hpe) hpx
        · exact h
      obtain ⟨rest, hrest⟩ :=
        ih e hmem' hpe (fun y hy hpy => huniq y (List.mem_cons_of_mem x hy) hpy)
      refine ⟨rest, ?_⟩
      rw [List.filter_cons, if_neg (by simp [hpx]), hrest]

/-- C8 (amended): the current walker (`src/ipfs_retrieval.py`) tolerates both
historically valid tag names: for a links collection whose unique
previous-link entry is tagged `"prev"` or `"previous"` it returns that
entry's predecessor id, and it returns `None` exactly when no entry carries
either tag. -/
theorem C8_previous_tag_tolerance (u : Nat) (links : List LinkEntry)
    (e : LinkEntry) (hmem : e ∈ links)
    (htag : e.rel = "prev" ∨ e.rel = "previous")
    (huniq : ∀ l ∈ links, (l.rel = "prev" ∨ l.rel = "previous") → l = e) :
    get_previous_hash_from_metadata { updated := u, links := links }
        = some e.href ∧
    ∀ u' links',
      (get_previous_hash_from_metadata { updated := u', links := links' } = none
        ↔ ∀ l ∈ links', l.rel ≠ "prev" ∧ l.rel ≠ "previous") := by
  constructor
  · have hpe : (e.rel == "prev" || e.rel == "previous") = true := by
      rcases htag with h | h <;> simp [h]
    obtain ⟨rest, hrest⟩ :=
      filter_first (fun l => l.rel == "prev" || l.rel == "previous") links e
        hmem hpe (fun y hy hpy => huniq y hy (by simpa using hpy))
    unfold get_previous_hash_from_metadata
    rw [hrest]
  · intro u' links'
    unfold get_previous_hash_from_metadata
    rcases hfil : links'.filter (fun l => l.rel == "prev" || l.rel == "previous")
      with _ | ⟨x, rest⟩
    · rw [hfil]
      constructor
      · intro _ l hl
        have hmemf := (List.filter_eq_nil_iff.mp hfil) l hl
        simpa using hmemf
      · intro _
        rfl
    · rw [hfil]
      show some x.href = none ↔ _
      constructor
      · intro hcontra
        exact Option.noConfusion hcontra
      · intro hnone
        exfalso
        have hx : x ∈ links'.filter
            (fun l => l.rel == "prev" || l.rel == "previous") := by
          rw [hfil]
          exact List.mem_cons_self x rest
        have hx' := List.mem_filter.mp hx
        rcases hnone x hx'.1 with ⟨h1, h2⟩
        have hcond := hx'.2
        simp [h1, h2] at hcond

/-- The metadata document whose only predecessor link carries the legacy
`"prev"` tag. -/
def prevTaggedMd : Metadata :=
  { updated := 0, links := [{ rel := "prev", href := "QmOld" }] }

/-- C8 counterexample: the older walker copy in
`dclimate_zarr_client/ipfs_retrieval.py` recognises only `"previous"`, so on
a links collection whose single entry is tagged `"prev"` it returns `None`
even though an entry carries a historically valid tag — the current walker
returns the predecessor id. -/
theorem C8_legacy_rejects_prev_tag :
    legacy_get_previous_hash_from_metadata prevTaggedMd = none ∧
    get_previous_hash_from_metadata prevTaggedMd = some "QmOld" := by
  refine ⟨?_, ?_⟩ <;> rfl

/-- Witness for C8 (amended) at a concrete links collection holding an
unrelated link and one `"prev"`-tagged link. -/
theorem C8_previous_tag_tolerance_witness :
    (⟨"prev", "QmP"⟩ : LinkEntry) ∈
        [(⟨"self", "QmS"⟩ : LinkEntry), ⟨"prev", "QmP"⟩] ∧
    get_previous_hash_from_metadata
        { updated := 5, links := [⟨"self", "QmS"⟩, ⟨"prev", "QmP"⟩] }
      = some "QmP" :=
  ⟨by decide,
    (C8_previous_tag_tolerance 5 [⟨"self", "QmS"⟩, ⟨"prev", "QmP"⟩]
      ⟨"prev", "QmP"⟩ (by decide) (by decide) (by decide)).1⟩

theorem flipByteAt_ne (l : List Nat) (i j : Nat) (h : i < l.length) :
    flipByteAt l i j ≠ l := by
  intro heq
  have hpos : 0 < 2 ^ (8 * i + j) := Nat.pos_pow_of_pos _ (by norm_num)
  rcases leNat_flipByteAt l i j h with hc | hc <;> rw [heq] at hc <;> omega

/-- C5: flipping any single bit of the tag region or of the ciphertext region
of a frame produced by `encode` makes `decode` fail with the integrity error,
and the caller-supplied output buffer is returned untouched — nothing is
written into it when verification fails. -/
theorem C5_bit_flip_rejected (c : EncryptionCodec) (nonce p out tag ct : List Nat)
    (i j : Nat) (hn : nonce.length = 24) (hj : j < 8)
    (hct : ct = xorBytes p (keystream c.key nonce p.length))
    (htag : tag = macBytes c.key nonce c.encodedHeader ct) :
    c.encode nonce p = nonce ++ tag ++ ct ∧
    (i < 16 →
      c.decodeWithOut (nonce ++ flipByteAt tag i j ++ ct) (some out)
        = (Except.error CodecError.integrityError, some out)) ∧
    (i < ct.length →
      c.decodeWithOut (nonce ++ tag ++ flipByteAt ct i j) (some out)
        = (Except.error CodecError.integrityError, some out)) := by
  have htlen : tag.length = 16 := by
    rw [htag]
    exact length_macBytes _ _ _ _
  refine ⟨?_, ?_, ?_⟩
  · subst hct
    subst htag
    rfl
  · intro hi
    have hlen' : (flipByteAt tag i j).length = 16 := by
      simp [flipByteAt, htlen]
    have hne : macBytes c.key nonce c.encodedHeader ct ≠ flipByteAt tag i j := by
      intro heq
      exact flipByteAt_ne tag i j (htlen ▸ hi) (htag.trans heq).symm
    have hdec : c.decode (nonce ++ flipByteAt tag i j ++ ct)
        = Except.error CodecError.integrityError := by
      rw [decode_frame c nonce _ ct hn hlen', if_neg hne]
    simp only [EncryptionCodec.decodeWithOut, hdec]
  · intro hi
    have hne : macBytes c.key nonce c.encodedHeader (flipByteAt ct i j) ≠ tag := by
      rw [htag]
      exact macBytes_flipByteAt_ne c.key nonce c.encodedHeader ct i j hi
    have hdec : c.decode (nonce ++ tag ++ flipByteAt ct i j)
        = Except.error CodecError.integrityError := by
      rw [decode_frame c nonce tag _ hn htlen, if_neg hne]
    simp only [EncryptionCodec.decodeWithOut, hdec]

/-- The concrete ciphertext and tag of the witness frame. -/
def ctW : List Nat := xorBytes pW (keystream keyW nonceW pW.length)

def tagW : List Nat := macBytes keyW nonceW defaultHeader ctW

/-- Witness for C5: flipping bit 0 of byte 0 of the tag region, or of the
ciphertext region, of a concrete encoded frame is rejected with the
integrity error, with the output buffer `[9, 9, 9, 9]` left unchanged. -/
theorem C5_bit_flip_rejected_witness :
    nonceW.length = 24 ∧ (0:Nat) < 8 ∧
    (codecW.encode nonceW pW = nonceW ++ tagW ++ ctW ∧
     ((0:Nat) < 16 →
       codecW.decodeWithOut (nonceW ++ flipByteAt tagW 0 0 ++ ctW)
           (some [9, 9, 9, 9])
         = (Except.error CodecError.integrityError, some [9, 9, 9, 9])) ∧
     ((0:Nat) < ctW.length →
       codecW.decodeWithOut (nonceW ++ tagW ++ flipByteAt ctW 0 0)
           (some [9, 9, 9, 9])
         = (Except.error CodecError.integrityError, some [9, 9, 9, 9]))) :=
  ⟨by decide, by decide,
    C5_bit_flip_rejected codecW nonceW pW [9, 9, 9, 9] tagW ctW 0 0
      (by decide) (by decide) rfl rfl⟩
